import Mathlib

/-!
Verification of the `override_key_derive` procedural-macro crate: a shallow
embedding of its attribute parsing, strategy merging, key synthesis and code
emission, together with proofs about the embedded pipeline.

Conventions of the embedding:
* `syn` AST nodes are modelled by first-order inductive types carrying only
  the data the crate inspects (identifier strings, literal kinds, nested
  attribute tokens).  Source spans are not modelled: a diagnostic keeps its
  message only.
* Generated Rust code is modelled by the `Snippet` type (one value-assignment
  fragment per field) plus an executable semantics `runSnippet`/`runSnippets`
  for the body of the generated `apply_overrides` method, where the external
  `set_override` operation is an arbitrary fallible function.
* `syn`-internal error messages (those not written by this crate, e.g. the
  message produced when `prefix` appears without `= "…"`) are abbreviated;
  the crate-authored messages are reproduced verbatim.
-/

/-- A diagnostic: `syn::Error` reduced to its message (spans are opaque). -/
structure Diag where
  msg : String
deriving DecidableEq, Repr

/-- A literal value, as far as the crate distinguishes literals:
a string literal or anything else (rendered description only). -/
inductive LitM where
  | str (s : String)
  | nonStr (desc : String)
deriving DecidableEq, Repr

/-- One comma-separated token inside a parenthesized attribute list,
e.g. inside `#[apply_overrides(...)]` or `#[override_key(...)]`:
a bare path (`infer`, `infer_keys`, anything else), a `name = literal`
assignment, or a bare literal string (the common `#[override_key("...")]`
mistake). -/
inductive AttrToken where
  | ident (name : String)
  | assign (name : String) (value : LitM)
  | bareStr (s : String)
deriving DecidableEq, Repr

/-- The right-hand side of a `name = value` attribute (`syn::Expr`),
as far as the crate distinguishes it: a string-literal expression or
anything else. -/
inductive ExprM where
  | litStr (s : String)
  | nonLitStr (desc : String)
deriving DecidableEq, Repr

/-- `syn::Meta`: the shape of one attribute. -/
inductive MetaM where
  | nameValue (value : ExprM)
  | list (tokens : List AttrToken)
  | path
deriving DecidableEq, Repr

/-- `syn::Attribute`: its path (a single identifier suffices for this crate,
which only ever calls `path().is_ident(..)`) and its meta shape. -/
structure AttributeM where
  path : String
  meta : MetaM
deriving DecidableEq, Repr

/-- `syn::PathArguments` of one path segment. -/
inductive PathArgumentsM where
  | None
  | AngleBracketed
  | Parenthesized
deriving DecidableEq, Repr

/-- One segment of a type path (`syn::PathSegment`): its identifier and
its argument shape. -/
structure PathSegment where
  ident : String
  arguments : PathArgumentsM
deriving DecidableEq, Repr

/-- `syn::Type`, as far as `is_option_type` inspects it: a path type with
its segments, or any other type form. -/
inductive TypeM where
  | path (segments : List PathSegment)
  | other
deriving DecidableEq, Repr

/-- `syn::Field`: optional identifier (named fields carry `some`),
declared type, and attached attributes. -/
structure FieldM where
  ident : Option String
  ty : TypeM
  attrs : List AttributeM
deriving DecidableEq, Repr

/-- `syn::Data` of a derive input: a struct with named fields, a tuple
struct, a unit struct, an enum or a union. -/
inductive DataM where
  | structNamed (fields : List FieldM)
  | structUnnamed
  | structUnit
  | enumData
  | unionData
deriving DecidableEq, Repr

/-- `syn::DeriveInput`: the derived type's name, its outer attributes and
its data. -/
structure DeriveInputM where
  ident : String
  attrs : List AttributeM
  data : DataM
deriving DecidableEq, Repr

/-- `types.rs` `FieldOverrideMeta`: the raw parse result of one field's
`#[override_key(...)]` attribute.  (The field of `Infer` is named `pre`
for the source's `prefix`.) -/
inductive FieldOverrideMeta where
  | Explicit (lit : String)
  | Infer (pre : Option String)
  | Invalid
  | None
deriving DecidableEq, Repr

/-- `types.rs` `KeyStrategy`: the resolved strategy after merging with
struct-level defaults. -/
inductive KeyStrategy where
  | Explicit (lit : String)
  | Inferred (pre : Option String)
deriving DecidableEq, Repr

/-- One generated per-field code fragment (`build_override_snippet` output):
either `if let Some(v) = &self.ident { builder = builder.set_override(key, v.clone())?; }`
or `builder = builder.set_override(key, self.ident.clone())?;`. -/
inductive Snippet where
  | guarded (ident key : String)
  | unconditional (ident key : String)
deriving DecidableEq, Repr

/-- `utils.rs` `push_error`: append one diagnostic to the accumulator. -/
def push_error (errors : List Diag) (msg : String) : List Diag :=
  errors ++ [⟨msg⟩]

/-- `utils.rs` `merge_with_struct_defaults`: merge a field's raw outcome with
the struct-level defaults (`struct_infer`, `struct_prefix`, here `structPre`)
into an optional resolved strategy.  The Rust `match` arms
(`Explicit`, `Infer`, `None if struct_infer`, wildcard) are translated in
order; the wildcard catches `None` without struct-level inference and
`Invalid`. -/
def merge_with_struct_defaults (field_meta : FieldOverrideMeta)
    (struct_infer : Bool) (structPre : Option String) : Option KeyStrategy :=
  match field_meta with
  | .Explicit lit => some (.Explicit lit)
  | .Infer pre => some (.Inferred (pre.or structPre))
  | .None => if struct_infer then some (.Inferred structPre) else none
  | .Invalid => none

/-- `ident.to_string().replace('_', ".")`: with a single-character pattern and
a single-character replacement, `str::replace` maps every `'_'` to `'.'` and
leaves every other character unchanged. -/
def replaceUnderscoreDots (s : String) : String :=
  String.mk (s.data.map (fun c => if c = '_' then '.' else c))

/-- `utils.rs` `make_key_literal`: the final key string for a field.
Explicit keys are returned as-is; inferred keys replace underscores by dots
and prepend a non-empty resolved prefix with a joining dot. -/
def make_key_literal (ident : String) (strategy : KeyStrategy) : String :=
  match strategy with
  | .Explicit lit => lit
  | .Inferred pre =>
    let key := replaceUnderscoreDots ident
    match pre with
    | some p => if p.isEmpty then key else p ++ "." ++ key
    | none => key

/-- `utils.rs` `is_option_type`: a type is treated as optional exactly when it
is a path type whose last segment is the identifier `Option` with
angle-bracketed arguments. -/
def is_option_type (ty : TypeM) : Bool :=
  match ty with
  | .path segments =>
    match segments.getLast? with
    | some seg =>
      seg.ident == "Option" &&
        (match seg.arguments with
         | .AngleBracketed => true
         | _ => false)
    | none => false
  | .other => false

/-- `utils.rs` `build_override_snippet`: guarded fragment for optional fields,
unconditional fragment otherwise. -/
def build_override_snippet (ident : String) (ty : TypeM) (key : String) :
    Snippet :=
  if is_option_type ty then .guarded ident key else .unconditional ident key

/-- `explicit.rs` `parse_field_explicit`: parse `#[override_key = <value>]`
given the name-value attribute's path and right-hand side, threading the
error accumulator. -/
def parse_field_explicit (nvPath : String) (value : ExprM)
    (errors : List Diag) : FieldOverrideMeta × List Diag :=
  if nvPath ≠ "override_key" then
    (.Invalid, push_error errors "expected `override_key` identifier before `=`")
  else
    match value with
    | .litStr s => (.Explicit s, errors)
    | .nonLitStr _ =>
      (.Invalid,
        push_error errors
          "expected string literal, e.g. #[override_key = \"custom.path\"]")

/-- `infer.rs` `parse_field_infer_list`, inner `parse_nested_meta` walk: one
comma-separated token at a time, stopping at the first token the closure (or
`syn` itself) rejects.  State threaded: the local `infer` bit and the local
`pre` (the source's `prefix`).  `syn` semantics modelled: a bare `prefix`
token fails when `meta.value()` finds no `=`; `infer = <lit>` sets the bit in
the closure and then fails on the unconsumed `= <lit>`; a bare string literal
cannot be parsed as a meta path. -/
def inferWalk : List AttrToken → Bool → Option String →
    Bool × Option String × Option Diag
  | [], infer, pre => (infer, pre, none)
  | t :: rest, infer, pre =>
    match t with
    | .ident n =>
      if n = "infer" then inferWalk rest true pre
      else if n = "prefix" then (infer, pre, some ⟨"expected `=`"⟩)
      else
        (infer, pre,
          some ⟨"unexpected token in #[override_key(...)] — expected `infer` or `prefix = \"...\"`"⟩)
    | .assign n v =>
      if n = "infer" then (true, pre, some ⟨"expected `,`"⟩)
      else if n = "prefix" then
        match v with
        | .str s => inferWalk rest infer (some s)
        | .nonStr _ => (infer, pre, some ⟨"expected string literal"⟩)
      else
        (infer, pre,
          some ⟨"unexpected token in #[override_key(...)] — expected `infer` or `prefix = \"...\"`"⟩)
    | .bareStr _ => (infer, pre, some ⟨"expected identifier"⟩)

/-- `infer.rs` `parse_field_infer_list`: walk the parenthesized tokens, report
a walk failure through the accumulator, then require the `infer` bit. -/
def parse_field_infer_list (tokens : List AttrToken) (errors : List Diag) :
    FieldOverrideMeta × List Diag :=
  match inferWalk tokens false none with
  | (infer, pre, res) =>
    let errors1 :=
      match res with
      | some e => push_error errors ("invalid #[override_key(...)] syntax: " ++ e.msg)
      | none => errors
    if !infer then
      (.Invalid,
        push_error errors1
          "missing `infer` keyword — expected #[override_key(infer[, prefix = \"...\"])]")
    else
      (.Infer pre, errors1)

/-- `field_parser/mod.rs`: `list.tokens.to_string().starts_with('"')` — true
exactly when the first token of the list is a bare string literal. -/
def tokensStartWithQuote : List AttrToken → Bool
  | .bareStr _ :: _ => true
  | _ => false

/-- `field_parser/mod.rs` `parse_field_override_meta`: dispatch on the found
attribute's meta shape (name-value, list, bare path). -/
def parse_field_override_meta (attr : Option AttributeM)
    (errors : List Diag) : FieldOverrideMeta × List Diag :=
  match attr with
  | none => (.None, errors)
  | some a =>
    match a.meta with
    | .nameValue v => parse_field_explicit a.path v errors
    | .list tokens =>
      if tokensStartWithQuote tokens then
        (.Invalid,
          push_error errors
            "invalid #[override_key(\"...\")] form — use #[override_key = \"...\"] instead")
      else
        parse_field_infer_list tokens errors
    | .path =>
      (.Invalid,
        push_error errors
          "missing form — expected #[override_key = \"...\"] or #[override_key(infer[, prefix = \"...\"])]")

/-- `field_parser/mod.rs` `process_field`: find the field's `override_key`
attribute, parse it, merge with struct defaults, synthesize the key and emit
the snippet; `none` when the field does not participate. -/
def process_field (field : FieldM) (struct_infer : Bool)
    (structPre : Option String) (errors : List Diag) :
    Option Snippet × List Diag :=
  match field.ident with
  | none => (none, errors)
  | some id =>
    let attr := field.attrs.find? (fun a => a.path == "override_key")
    match parse_field_override_meta attr errors with
    | (field_meta, errors1) =>
      match merge_with_struct_defaults field_meta struct_infer structPre with
      | none => (none, errors1)
      | some strategy =>
        let key := make_key_literal id strategy
        (some (build_override_snippet id field.ty key), errors1)

/-- `field_parser/mod.rs` `parse_fields`: named fields of a struct, or the
fatal shape error. -/
def parse_fields (input : DeriveInputM) : Except Diag (List FieldM) :=
  match input.data with
  | .structNamed fields => .ok fields
  | .structUnnamed => .error ⟨"ApplyOverrides requires a struct with named fields"⟩
  | .structUnit => .error ⟨"ApplyOverrides requires a struct with named fields"⟩
  | .enumData => .error ⟨"ApplyOverrides can only be used on structs"⟩
  | .unionData => .error ⟨"ApplyOverrides can only be used on structs"⟩

/-- `struct_config.rs`, inner `parse_nested_meta` walk over one
`#[apply_overrides(...)]` block: sets the `infer_keys` flag, overwrites the
default `pre` on each `prefix = "<string>"`, and stops at the first rejected
token (mutations made before the stop persist — in particular
`infer_keys = <lit>` sets the flag inside the closure before `syn` fails on
the unconsumed `= <lit>`). -/
def structWalk : List AttrToken → Bool → Option String →
    Bool × Option String × Option Diag
  | [], infer_keys, pre => (infer_keys, pre, none)
  | t :: rest, infer_keys, pre =>
    match t with
    | .ident n =>
      if n = "infer_keys" then structWalk rest true pre
      else if n = "prefix" then (infer_keys, pre, some ⟨"expected `=`"⟩)
      else (infer_keys, pre, some ⟨"expected `infer_keys` or `prefix = \"...\"`"⟩)
    | .assign n v =>
      if n = "infer_keys" then (true, pre, some ⟨"expected `,`"⟩)
      else if n = "prefix" then
        match v with
        | .str s => structWalk rest infer_keys (some s)
        | .nonStr _ => (infer_keys, pre, some ⟨"expected string literal"⟩)
      else (infer_keys, pre, some ⟨"expected `infer_keys` or `prefix = \"...\"`"⟩)
    | .bareStr _ => (infer_keys, pre, some ⟨"expected identifier"⟩)

/-- `struct_config.rs` `parse_struct_level_config`, attribute loop: skip
attributes whose path is not `apply_overrides`; for a list block run
`structWalk`, appending its failure (if any) to the accumulator; for a bare
or name-value `apply_overrides` attribute, `syn`'s `parse_nested_meta`
itself fails. -/
def structConfigGo : List AttributeM → Bool → Option String → List Diag →
    Bool × Option String × List Diag
  | [], infer_keys, pre, errors => (infer_keys, pre, errors)
  | a :: rest, infer_keys, pre, errors =>
    if a.path = "apply_overrides" then
      match a.meta with
      | .list tokens =>
        match structWalk tokens infer_keys pre with
        | (i2, p2, none) => structConfigGo rest i2 p2 errors
        | (i2, p2, some e) => structConfigGo rest i2 p2 (errors ++ [e])
      | .path =>
        structConfigGo rest infer_keys pre
          (errors ++ [⟨"expected attribute arguments in parentheses: #[apply_overrides(...)]"⟩])
      | .nameValue _ =>
        structConfigGo rest infer_keys pre
          (errors ++ [⟨"expected attribute arguments in parentheses: #[apply_overrides(...)]"⟩])
    else structConfigGo rest infer_keys pre errors

/-- `struct_config.rs` `parse_struct_level_config`: scan all struct
attributes starting from the defaults (flag off, no default `pre`, no
errors). -/
def parse_struct_level_config (input : DeriveInputM) :
    Bool × Option String × List Diag :=
  structConfigGo input.attrs false none []

/-- `builder_gen.rs` field loop: process each field in declaration order,
collecting generated snippets and threading the accumulator. -/
def processFields : List FieldM → Bool → Option String → List Diag →
    List Snippet × List Diag
  | [], _, _, errors => ([], errors)
  | f :: rest, struct_infer, structPre, errors =>
    match process_field f struct_infer structPre errors with
    | (some code, errors1) =>
      match processFields rest struct_infer structPre errors1 with
      | (generated, errors2) => (code :: generated, errors2)
    | (none, errors1) => processFields rest struct_infer structPre errors1

/-- The final artifact of the macro: either the rendered diagnostics
(`compile_error!` invocations, in collection order) or one `impl` block
holding the generated fragments in field order. -/
inductive Output where
  | diagnostics (ds : List Diag)
  | implBlock (name : String) (generated : List Snippet)
deriving DecidableEq, Repr

/-- `builder_gen.rs` `generate_impl`: struct-level config, shape check
(bubbling the shape error up), field loop, then the all-or-nothing decision
between `compile_error!`s and the assembled `impl` block. -/
def generate_impl (input : DeriveInputM) : Except Diag Output :=
  match parse_struct_level_config input with
  | (struct_infer, structPre, struct_errors) =>
    match parse_fields input with
    | .error e => .error e
    | .ok fields =>
      match processFields fields struct_infer structPre struct_errors with
      | (generated, errors) =>
        if !errors.isEmpty then .ok (.diagnostics errors)
        else .ok (.implBlock input.ident generated)

/-- `lib.rs` `derive_apply_overrides`: a bubbled-up shape error is rendered
as a single `compile_error!`. -/
def derive_apply_overrides (input : DeriveInputM) : Output :=
  match generate_impl input with
  | .ok tokens => tokens
  | .error e => .diagnostics [e]

/-- A runtime value of a field, as the generated code discriminates values:
an `Option` layer (`someV`/`noneV`) or any other value (`base`).  An
optional-of-optional field holds values such as `someV noneV`. -/
inductive RtVal where
  | base (s : String)
  | someV (v : RtVal)
  | noneV
deriving DecidableEq, Repr

/-- Runtime semantics of one generated fragment: `env` gives each field's
current value (`&self.ident`), `setO` is the external
`builder.set_override(key, value)` operation.  A guarded fragment runs its
body only when `if let Some(v)` matches; an unconditional fragment always
calls `setO`.  The `?` operator is the `Except` short-circuit of the
caller (`runSnippets`). -/
def runSnippet {β ε : Type} (setO : String → RtVal → β → Except ε β)
    (env : String → RtVal) (s : Snippet) (b : β) : Except ε β :=
  match s with
  | .guarded ident key =>
    match env ident with
    | .someV v => setO key v b
    | _ => .ok b
  | .unconditional ident key => setO key (env ident) b

/-- Runtime semantics of the generated `apply_overrides` body
`#(#generated)* ; Ok(builder)`: run each fragment in order, threading the
builder, returning at the first `set_override` failure. -/
def runSnippets {β ε : Type} (setO : String → RtVal → β → Except ε β)
    (env : String → RtVal) : List Snippet → β → Except ε β
  | [], b => .ok b
  | s :: rest, b =>
    match runSnippet setO env s b with
    | .error e => .error e
    | .ok b2 => runSnippets setO env rest b2

/-- What the emitted artifact lets a program run: a diagnostics-only artifact
contains no override logic (nothing to run, `none`); an `impl` block runs its
fragments over an initial builder. -/
def outputRun {β ε : Type} (setO : String → RtVal → β → Except ε β)
    (env : String → RtVal) (out : Output) (b : β) : Option (Except ε β) :=
  match out with
  | .diagnostics _ => none
  | .implBlock _ generated => some (runSnippets setO env generated b)

/-- C2: the strategy merger is a pure function of the field's raw outcome and
the struct defaults: an explicit key always wins; a field-level inference
request resolves its own `pre` first, falling back to the struct default; an
unannotated field participates only under struct-level inference (and emits
no diagnostic either way); a malformed field gets no strategy regardless of
struct defaults, so `process_field` generates no fragment for it. -/
theorem merge_strategy_cases (k fp id : String) (si : Bool) (sp : Option String)
    (ty : TypeM) (errs : List Diag) :
    merge_with_struct_defaults (.Explicit k) si sp = some (.Explicit k) ∧
    merge_with_struct_defaults (.Infer (some fp)) si sp = some (.Inferred (some fp)) ∧
    merge_with_struct_defaults (.Infer none) si sp = some (.Inferred sp) ∧
    merge_with_struct_defaults .None true sp = some (.Inferred sp) ∧
    merge_with_struct_defaults .None false sp = none ∧
    merge_with_struct_defaults .Invalid si sp = none ∧
    process_field ⟨some id, ty, []⟩ false sp errs = (none, errs) :=
  ⟨rfl, rfl, rfl, rfl, rfl, rfl, rfl⟩

/-- C3: an inferred key replaces every underscore of the field identifier
with a dot (character by character); a present non-empty resolved prefix is
prepended with a joining dot; an absent or empty prefix leaves the base key
unchanged, so an empty prefix never introduces a leading dot. -/
theorem inferred_key_synthesis (id p : String) :
    (replaceUnderscoreDots id).data
        = id.data.map (fun c => if c = '_' then '.' else c) ∧
    make_key_literal id (.Inferred none) = replaceUnderscoreDots id ∧
    make_key_literal id (.Inferred (some "")) = replaceUnderscoreDots id ∧
    (p ≠ "" → make_key_literal id (.Inferred (some p))
        = p ++ "." ++ replaceUnderscoreDots id) ∧
    make_key_literal id (.Inferred (some "")) = make_key_literal id (.Inferred none) := by
  refine ⟨rfl, rfl, rfl, ?_, rfl⟩
  intro h
  have hp : p.isEmpty = false := by
    cases he : p.isEmpty with
    | true => exact absurd ((String.isEmpty_iff p).mp he) h
    | false => rfl
  simp [make_key_literal, hp]

/-- The C3 theorem applied at the spec's Scenario A field: `region_id` with
resolved prefix `"iproyal"` synthesizes `"iproyal.region.id"`. -/
theorem inferred_key_synthesis_witness :
    make_key_literal "region_id" (.Inferred (some "iproyal")) = "iproyal.region.id" := by
  have h := (inferred_key_synthesis "region_id" "iproyal").2.2.2.1 (by decide)
  rw [h]
  rfl

/-- C5: an explicit key annotation is parsed to the literal's exact string,
merged to the explicit strategy regardless of the struct-level flag and
struct-level default, and synthesized verbatim with no transformation. -/
theorem explicit_key_verbatim (k id s : String) (si : Bool) (sp : Option String)
    (errs : List Diag) :
    parse_field_explicit "override_key" (.litStr s) errs = (.Explicit s, errs) ∧
    merge_with_struct_defaults (.Explicit k) si sp = some (.Explicit k) ∧
    make_key_literal id (.Explicit k) = k := by
  refine ⟨?_, rfl, rfl⟩
  simp [parse_field_explicit]

/-- C8: a direct key/value field annotation whose left-hand identifier is not
`override_key` records exactly the diagnostic
"expected `override_key` identifier before `=`" and yields the malformed
outcome. -/
theorem mismatched_ident_malformed (nvPath : String) (v : ExprM)
    (errs : List Diag) (h : nvPath ≠ "override_key") :
    parse_field_explicit nvPath v errs =
      (.Invalid, errs ++ [⟨"expected `override_key` identifier before `=`"⟩]) := by
  simp [parse_field_explicit, push_error, h]

/-- The C8 theorem applied at a concrete mismatched attribute. -/
theorem mismatched_ident_malformed_witness :
    parse_field_explicit "something_else" (.litStr "foo") [] =
      (.Invalid, [⟨"expected `override_key` identifier before `=`"⟩]) :=
  mismatched_ident_malformed "something_else" (.litStr "foo") [] (by decide)

/-- C9: a field counts as optional-wrapped exactly when its declared type is
a path type whose last segment is the identifier `Option` with
angle-bracketed arguments, and the emitted fragment is guarded exactly for
such types; the check is purely syntactic — a qualified
`std::option::Option<T>` or a non-standard path ending in `Option<...>`
passes, while an alias of `Option` under another name, or `Option` without
angle-bracketed arguments, counts as concrete. -/
theorem is_option_type_syntactic (ty : TypeM) :
    (is_option_type ty = true ↔
      ∃ segs seg, ty = TypeM.path segs ∧ segs.getLast? = some seg ∧
        seg.ident = "Option" ∧ seg.arguments = .AngleBracketed) ∧
    (∀ id key, build_override_snippet id ty key =
        if is_option_type ty then .guarded id key else .unconditional id key) ∧
    is_option_type (.path [⟨"std", .None⟩, ⟨"option", .None⟩,
        ⟨"Option", .AngleBracketed⟩]) = true ∧
    is_option_type (.path [⟨"my_mod", .None⟩, ⟨"Option", .AngleBracketed⟩]) = true ∧
    is_option_type (.path [⟨"MaybeString", .AngleBracketed⟩]) = false ∧
    is_option_type (.path [⟨"Option", .None⟩]) = false := by
  refine ⟨?_, fun id key => rfl, by decide, by decide, by decide, by decide⟩
  constructor
  · intro h
    cases ty with
    | other => simp [is_option_type] at h
    | path segs =>
      cases hseg : segs.getLast? with
      | none => simp [is_option_type, hseg] at h
      | some seg =>
        cases harg : seg.arguments with
        | AngleBracketed =>
          refine ⟨segs, seg, rfl, hseg, ?_, harg⟩
          simpa [is_option_type, hseg, harg] using h
        | None => simp [is_option_type, hseg, harg] at h
        | Parenthesized => simp [is_option_type, hseg, harg] at h
  · rintro ⟨segs, seg, rfl, hseg, hident, harg⟩
    simp [is_option_type, hseg, hident, harg]

/-- The C9 theorem applied at the bare `Option<T>` type. -/
theorem is_option_type_syntactic_witness :
    is_option_type (.path [⟨"Option", .AngleBracketed⟩]) = true :=
  ((is_option_type_syntactic (.path [⟨"Option", .AngleBracketed⟩])).1).mpr
    ⟨[⟨"Option", .AngleBracketed⟩], ⟨"Option", .AngleBracketed⟩, rfl, rfl, rfl, rfl⟩

/-- C4: an optional-wrapped field gets the guarded fragment, which calls the
override-set operation with `(key, innerValue)` exactly when a value is
present and is a silent no-op on absence; `inner` ranges over all runtime
values, so for an optional-of-optional field only the outer layer is
unwrapped and the inner value (possibly itself `noneV`) is passed to the set
operation unchanged; a concrete field gets the unconditional fragment, which
always calls the set operation with the current value. -/
theorem optional_guard_emission {β ε : Type} (ty : TypeM) (id key : String)
    (setO : String → RtVal → β → Except ε β) (env : String → RtVal)
    (b : β) (inner : RtVal) :
    (is_option_type ty = true →
      build_override_snippet id ty key = .guarded id key ∧
      (env id = .someV inner →
        runSnippet setO env (.guarded id key) b = setO key inner b) ∧
      (env id = .noneV → runSnippet setO env (.guarded id key) b = .ok b)) ∧
    (is_option_type ty = false →
      build_override_snippet id ty key = .unconditional id key ∧
      runSnippet setO env (.unconditional id key) b = setO key (env id) b) := by
  constructor
  · intro h
    refine ⟨by simp [build_override_snippet, h], ?_, ?_⟩
    · intro he
      simp [runSnippet, he]
    · intro he
      simp [runSnippet, he]
  · intro h
    exact ⟨by simp [build_override_snippet, h], rfl⟩

/-- The C4 theorem applied at `Option<u32>`-shaped and plain fields with a
recording `set_override`. -/
theorem optional_guard_emission_witness :
    runSnippet (fun k v (b : List (String × RtVal)) =>
        (.ok ((k, v) :: b) : Except Unit (List (String × RtVal))))
      (fun _ => .someV (.base "42")) (.guarded "region_id" "iproyal.region.id") []
      = .ok [("iproyal.region.id", .base "42")] :=
  ((optional_guard_emission (.path [⟨"Option", .AngleBracketed⟩]) "region_id"
      "iproyal.region.id"
      (fun k v (b : List (String × RtVal)) =>
        (.ok ((k, v) :: b) : Except Unit (List (String × RtVal))))
      (fun _ => .someV (.base "42")) [] (.base "42")).1 (by decide)).2.1 rfl

/-- C6: a derive input that is not a struct with named fields makes
`parse_fields` fail, `generate_impl` bubble that single shape error up
without processing any field, and the rendered artifact consist of exactly
that one diagnostic — whatever the struct-level attributes were, including
ones whose parsing would itself have produced diagnostics. -/
theorem shape_error_aborts (input : DeriveInputM)
    (h : ∀ fields, input.data ≠ DataM.structNamed fields) :
    ∃ d, parse_fields input = .error d ∧
      generate_impl input = .error d ∧
      derive_apply_overrides input = .diagnostics [d] := by
  have hp : ∃ d, parse_fields input = .error d := by
    unfold parse_fields
    cases hd : input.data with
    | structNamed fields => exact absurd hd (h fields)
    | structUnnamed => exact ⟨_, rfl⟩
    | structUnit => exact ⟨_, rfl⟩
    | enumData => exact ⟨_, rfl⟩
    | unionData => exact ⟨_, rfl⟩
  obtain ⟨d, hdp⟩ := hp
  have hg : generate_impl input = .error d := by
    unfold generate_impl
    rw [hdp]
  exact ⟨d, hdp, hg, by unfold derive_apply_overrides; rw [hg]⟩

/-- The C6 theorem applied at an enum input that also carries an invalid
struct-level `#[apply_overrides(...)]` block. -/
theorem shape_error_aborts_witness :
    ∃ d, parse_fields ⟨"E", [⟨"apply_overrides", .list [.ident "bogus"]⟩], .enumData⟩
        = .error d ∧
      generate_impl ⟨"E", [⟨"apply_overrides", .list [.ident "bogus"]⟩], .enumData⟩
        = .error d ∧
      derive_apply_overrides ⟨"E", [⟨"apply_overrides", .list [.ident "bogus"]⟩], .enumData⟩
        = .diagnostics [d] :=
  shape_error_aborts ⟨"E", [⟨"apply_overrides", .list [.ident "bogus"]⟩], .enumData⟩
    (fun fields hf => by simp at hf)

/-- C7: the generated `apply_overrides` body threads the builder through the
fragments in order; with no fragments (or after the last one) the current
builder is returned under `.ok`; the first failing `set_override` call makes
the whole run return exactly that error — the fragments after it are
irrelevant to the result (none of them is applied) — and a succeeding call
passes its updated builder to the rest. -/
theorem apply_overrides_first_failure {β ε : Type}
    (setO : String → RtVal → β → Except ε β) (env : String → RtVal)
    (s : Snippet) (rest rest2 : List Snippet) (b : β) :
    runSnippets setO env [] b = .ok b ∧
    (∀ e, runSnippet setO env s b = .error e →
        runSnippets setO env (s :: rest) b = .error e) ∧
    (∀ e, runSnippet setO env s b = .error e →
        runSnippets setO env (s :: rest) b = runSnippets setO env (s :: rest2) b) ∧
    (∀ b2, runSnippet setO env s b = .ok b2 →
        runSnippets setO env (s :: rest) b = runSnippets setO env rest b2) := by
  refine ⟨rfl, ?_, ?_, ?_⟩ <;> intro x hx <;> simp [runSnippets, hx]

/-- The C7 theorem applied at a failing `set_override` with one further
fragment behind it. -/
theorem apply_overrides_first_failure_witness :
    runSnippets (fun _ _ (_ : Nat) => (.error "boom" : Except String Nat))
      (fun _ => .base "v")
      [.unconditional "f" "k", .unconditional "g" "k2"] 0
      = .error "boom" :=
  ((apply_overrides_first_failure (fun _ _ (_ : Nat) => (.error "boom" : Except String Nat))
      (fun _ => .base "v") (.unconditional "f" "k") [.unconditional "g" "k2"] [] 0).2.1
    "boom" rfl)

/-- The snippet a field contributes (computed against an empty accumulator):
`process_field` only ever appends to the accumulator, so this is the
field's contribution for any incoming accumulator. -/
def fieldSnip (f : FieldM) (si : Bool) (sp : Option String) : Option Snippet :=
  (process_field f si sp []).1

/-- The diagnostics a field contributes (computed against an empty
accumulator). -/
def fieldDiags (f : FieldM) (si : Bool) (sp : Option String) : List Diag :=
  (process_field f si sp []).2

theorem parse_field_explicit_split (p : String) (v : ExprM) (errs : List Diag) :
    parse_field_explicit p v errs =
      ((parse_field_explicit p v []).1, errs ++ (parse_field_explicit p v []).2) := by
  by_cases h : p = "override_key" <;> cases v <;>
    simp [parse_field_explicit, push_error, h]

theorem parse_field_infer_list_split (ts : List AttrToken) (errs : List Diag) :
    parse_field_infer_list ts errs =
      ((parse_field_infer_list ts []).1, errs ++ (parse_field_infer_list ts []).2) := by
  rcases hw : inferWalk ts false none with ⟨infer, pre, res⟩
  cases infer <;> rcases res with _ | e <;>
    simp [parse_field_infer_list, hw, push_error, List.append_assoc]

theorem parse_field_override_meta_split (attr : Option AttributeM) (errs : List Diag) :
    parse_field_override_meta attr errs =
      ((parse_field_override_meta attr []).1,
       errs ++ (parse_field_override_meta attr []).2) := by
  match attr with
  | none => simp [parse_field_override_meta]
  | some a =>
    match hm : a.meta with
    | .nameValue v =>
      simp [parse_field_override_meta, hm, parse_field_explicit_split a.path v errs]
    | .list ts =>
      cases hq : tokensStartWithQuote ts with
      | true => simp [parse_field_override_meta, hm, hq, push_error]
      | false =>
        simp [parse_field_override_meta, hm, hq, parse_field_infer_list_split ts errs]
    | .path => simp [parse_field_override_meta, hm, push_error]

theorem process_field_split (f : FieldM) (si : Bool) (sp : Option String)
    (errs : List Diag) :
    process_field f si sp errs = (fieldSnip f si sp, errs ++ fieldDiags f si sp) := by
  rcases f with ⟨fid, fty, fattrs⟩
  cases fid with
  | none => simp [process_field, fieldSnip, fieldDiags]
  | some id =>
    simp only [process_field, fieldSnip, fieldDiags]
    rw [parse_field_override_meta_split (fattrs.find? fun a => a.path == "override_key") errs]
    rcases hpm : parse_field_override_meta
        (fattrs.find? fun a => a.path == "override_key") [] with ⟨M, ds⟩
    cases hmg : merge_with_struct_defaults M si sp <;> simp [hmg]

theorem processFields_split (fields : List FieldM) (si : Bool) (sp : Option String) :
    ∀ errs, processFields fields si sp errs =
      (fields.filterMap (fun f => fieldSnip f si sp),
       errs ++ fields.flatMap (fun f => fieldDiags f si sp)) := by
  induction fields with
  | nil => intro errs; simp [processFields]
  | cons f rest ih =>
    intro errs
    simp only [processFields, process_field_split]
    cases hs : fieldSnip f si sp <;>
      simp [List.filterMap_cons, List.flatMap_cons, hs, ih, List.append_assoc]

/-- All diagnostics the pipeline collects for a named-field struct: the
struct-level ones first, then each field's, in field declaration order. -/
def pipelineDiags (input : DeriveInputM) (fields : List FieldM) : List Diag :=
  (parse_struct_level_config input).2.2 ++
    fields.flatMap (fun f =>
      fieldDiags f (parse_struct_level_config input).1
        (parse_struct_level_config input).2.1)

/-- All fragments the pipeline generates for a named-field struct, in field
declaration order. -/
def pipelineSnips (input : DeriveInputM) (fields : List FieldM) : List Snippet :=
  fields.filterMap (fun f =>
    fieldSnip f (parse_struct_level_config input).1
      (parse_struct_level_config input).2.1)

/-- C1: for a named-field struct the pipeline produces exactly one of two
results.  If any diagnostic was recorded during struct-level or field-level
parsing, the artifact is exactly the rendered diagnostics in collection
order (struct-level first, then per field in declaration order) and carries
no override fragment (there is nothing to run).  If none was recorded, the
artifact is a single `impl` block holding every generated fragment in field
declaration order, whose body threads one builder value through the
fragments sequentially (`runSnippets`) and returns it. -/
theorem generate_impl_all_or_nothing {β ε : Type} (input : DeriveInputM)
    (fields : List FieldM) (setO : String → RtVal → β → Except ε β)
    (env : String → RtVal) (b : β)
    (h : input.data = DataM.structNamed fields) :
    (pipelineDiags input fields ≠ [] →
      derive_apply_overrides input = .diagnostics (pipelineDiags input fields) ∧
      outputRun setO env (derive_apply_overrides input) b = none) ∧
    (pipelineDiags input fields = [] →
      derive_apply_overrides input = .implBlock input.ident (pipelineSnips input fields) ∧
      outputRun setO env (derive_apply_overrides input) b
        = some (runSnippets setO env (pipelineSnips input fields) b)) := by
  have hpf : parse_fields input = .ok fields := by
    unfold parse_fields
    rw [h]
  rcases hcfg : parse_struct_level_config input with ⟨si, spre, serrs⟩
  have hD : pipelineDiags input fields
      = serrs ++ fields.flatMap (fun f => fieldDiags f si spre) := by
    unfold pipelineDiags
    rw [hcfg]
  have hS : pipelineSnips input fields
      = fields.filterMap (fun f => fieldSnip f si spre) := by
    unfold pipelineSnips
    rw [hcfg]
  have hgen : generate_impl input =
      (if !(serrs ++ fields.flatMap (fun f => fieldDiags f si spre)).isEmpty
        then Except.ok (Output.diagnostics
          (serrs ++ fields.flatMap (fun f => fieldDiags f si spre)))
        else Except.ok (Output.implBlock input.ident
          (fields.filterMap (fun f => fieldSnip f si spre)))) := by
    unfold generate_impl
    rw [hcfg, hpf]
    simp only [processFields_split]
  constructor
  · intro hne
    rw [hD] at hne ⊢
    cases hL : serrs ++ fields.flatMap (fun f => fieldDiags f si spre) with
    | nil => exact absurd hL hne
    | cons d ds =>
      rw [hL] at hgen
      simp only [List.isEmpty_cons, Bool.not_false, if_true] at hgen
      unfold derive_apply_overrides
      rw [hgen]
      exact ⟨rfl, rfl⟩
  · intro hD0
    rw [hD] at hD0
    rw [hD0] at hgen
    simp only [List.isEmpty_nil, Bool.not_true, Bool.false_eq_true, if_false] at hgen
    rw [hS]
    unfold derive_apply_overrides
    rw [hgen]
    exact ⟨rfl, rfl⟩

/-- The named fields of the C1 witness struct: an unannotated
`region_id: Option<u32>` field and an explicitly keyed `endpoint: String`
field. -/
def c1Fields : List FieldM :=
  [⟨some "region_id", .path [⟨"Option", .AngleBracketed⟩], []⟩,
   ⟨some "endpoint", .path [⟨"String", .None⟩],
     [⟨"override_key", .nameValue (.litStr "custom.endpoint")⟩]⟩]

/-- The C1 witness input: struct-level inference with default prefix
`iproyal` over `c1Fields`; it parses without diagnostics. -/
def c1Input : DeriveInputM :=
  ⟨"CLIArgs",
   [⟨"apply_overrides", .list [.ident "infer_keys", .assign "prefix" (.str "iproyal")]⟩],
   .structNamed c1Fields⟩

/-- The C1 theorem applied at the diagnostic-free `c1Input`. -/
theorem generate_impl_all_or_nothing_witness :
    derive_apply_overrides c1Input
        = .implBlock "CLIArgs" (pipelineSnips c1Input c1Fields) ∧
    outputRun (fun _ _ (b : Nat) => (.ok b : Except Unit Nat)) (fun _ => .base "x")
        (derive_apply_overrides c1Input) 0
      = some (runSnippets (fun _ _ (b : Nat) => (.ok b : Except Unit Nat))
          (fun _ => .base "x") (pipelineSnips c1Input c1Fields) 0) :=
  (generate_impl_all_or_nothing c1Input c1Fields
      (fun _ _ (b : Nat) => (.ok b : Except Unit Nat)) (fun _ => .base "x") 0 rfl).2
    (by decide)

/-- A token of an `#[apply_overrides(...)]` block that the scan accepts and
moves past: the bare `infer_keys` flag or a string-valued `prefix`
assignment.  Every other token stops the block's scan. -/
def tokenOk : AttrToken → Bool
  | .ident n => n == "infer_keys"
  | .assign n v =>
    n == "prefix" &&
      (match v with
       | .str _ => true
       | .nonStr _ => false)
  | .bareStr _ => false

/-- Whether processing a token turns the inference flag on: the bare
`infer_keys` flag, or an `infer_keys = <lit>` assignment (the closure sets
the flag before `syn` stops on the unconsumed value). -/
def tokenSetsInfer : AttrToken → Bool
  | .ident n => n == "infer_keys"
  | .assign n _ => n == "infer_keys"
  | .bareStr _ => false

/-- The default-prefix value a token contributes, if any. -/
def tokenPre : AttrToken → Option String
  | .assign n (.str s) => if n == "prefix" then some s else none
  | _ => none

/-- The diagnostic the scan reports when it stops at a token it rejects. -/
def diagOfBadToken : AttrToken → Diag
  | .ident n =>
    if n == "prefix" then ⟨"expected `=`"⟩
    else ⟨"expected `infer_keys` or `prefix = \"...\"`"⟩
  | .assign n _ =>
    if n == "infer_keys" then ⟨"expected `,`"⟩
    else if n == "prefix" then ⟨"expected string literal"⟩
    else ⟨"expected `infer_keys` or `prefix = \"...\"`"⟩
  | .bareStr _ => ⟨"expected identifier"⟩

/-- The tokens of a block the scan actually processes: every accepted token
before the first rejected one, plus that rejected token itself (whose
processing may still have side effects before the stop). -/
def blockScanned (ts : List AttrToken) : List AttrToken :=
  ts.takeWhile tokenOk ++ (ts.dropWhile tokenOk).take 1

/-- Whether scanning a block turns the inference flag on. -/
def blockInfer (ts : List AttrToken) : Bool :=
  (blockScanned ts).any tokenSetsInfer

/-- The last default-prefix value a block's scan sets, if any. -/
def blockPre (ts : List AttrToken) : Option String :=
  ((ts.takeWhile tokenOk).filterMap tokenPre).getLast?

/-- The diagnostic a block's scan reports: that of the first rejected token,
if one exists. -/
def blockDiag (ts : List AttrToken) : Option Diag :=
  ((ts.dropWhile tokenOk).head?).map diagOfBadToken

theorem getLast?_cons_or {α : Type} : ∀ (l : List α) (a : α),
    (a :: l).getLast? = l.getLast?.or (some a)
  | [], _ => rfl
  | b :: l, a => by
    rw [List.getLast?_cons_cons, getLast?_cons_or l b, Option.or_assoc]
    rfl

/-- The early-stopping scan of one block equals its `takeWhile`/`dropWhile`
characterization: the flag becomes the old flag or any flag-setting token
among the scanned ones; the default prefix becomes the block's last
successful `prefix` value, falling back to the incoming one; the reported
diagnostic is that of the first rejected token. -/
theorem structWalk_spec (ts : List AttrToken) :
    ∀ i p, structWalk ts i p
      = (i || blockInfer ts, (blockPre ts).or p, blockDiag ts) := by
  induction ts with
  | nil => intro i p; simp [structWalk, blockInfer, blockScanned, blockPre, blockDiag]
  | cons t rest ih =>
    intro i p
    cases t with
    | ident n =>
      by_cases hn : n = "infer_keys"
      · subst hn
        simp [structWalk, ih, blockInfer, blockScanned, blockPre, blockDiag,
          List.takeWhile_cons, List.dropWhile_cons, tokenOk, tokenSetsInfer, tokenPre]
      · by_cases hp : n = "prefix"
        · subst hp
          simp [structWalk, blockInfer, blockScanned, blockPre, blockDiag,
            List.takeWhile_cons, List.dropWhile_cons, tokenOk, tokenSetsInfer,
            diagOfBadToken]
        · simp [structWalk, hn, hp, blockInfer, blockScanned, blockPre, blockDiag,
            List.takeWhile_cons, List.dropWhile_cons, tokenOk, tokenSetsInfer,
            diagOfBadToken]
    | assign n v =>
      by_cases hn : n = "infer_keys"
      · subst hn
        simp [structWalk, blockInfer, blockScanned, blockPre, blockDiag,
          List.takeWhile_cons, List.dropWhile_cons, tokenOk, tokenSetsInfer,
          diagOfBadToken]
      · by_cases hp : n = "prefix"
        · subst hp
          cases v with
          | str s =>
            rw [structWalk]
            simp only [if_neg hn, if_pos rfl]  -- scrutinee reduction happens via simp below
            rw [ih]
            simp [blockInfer, blockScanned, blockPre, blockDiag,
              List.takeWhile_cons, List.dropWhile_cons, tokenOk, tokenSetsInfer,
              tokenPre, getLast?_cons_or, Option.or_assoc, hn]
          | nonStr d =>
            simp [structWalk, hn, blockInfer, blockScanned, blockPre, blockDiag,
              List.takeWhile_cons, List.dropWhile_cons, tokenOk, tokenSetsInfer,
              diagOfBadToken]
        · simp [structWalk, hn, hp, blockInfer, blockScanned, blockPre, blockDiag,
            List.takeWhile_cons, List.dropWhile_cons, tokenOk, tokenSetsInfer,
            diagOfBadToken]
    | bareStr s =>
      simp [structWalk, blockInfer, blockScanned, blockPre, blockDiag,
        List.takeWhile_cons, List.dropWhile_cons, tokenOk, tokenSetsInfer,
        diagOfBadToken]

/-- Whether one struct attribute turns inference on: it must be an
`apply_overrides` list block whose scan reaches a flag-setting token. -/
def attrInfer (a : AttributeM) : Bool :=
  a.path == "apply_overrides" &&
    (match a.meta with
     | .list ts => blockInfer ts
     | _ => false)

/-- The default-prefix value one struct attribute contributes, if any. -/
def attrPre (a : AttributeM) : Option String :=
  if a.path == "apply_overrides" then
    match a.meta with
    | .list ts => blockPre ts
    | _ => none
  else none

/-- The diagnostics one struct attribute contributes: at most one — its
block's first rejected token, or the `syn` failure on a bare/name-value
`apply_overrides` attribute. -/
def attrDiags (a : AttributeM) : List Diag :=
  if a.path = "apply_overrides" then
    match a.meta with
    | .list ts => (blockDiag ts).toList
    | .path =>
      [⟨"expected attribute arguments in parentheses: #[apply_overrides(...)]"⟩]
    | .nameValue _ =>
      [⟨"expected attribute arguments in parentheses: #[apply_overrides(...)]"⟩]
  else []

theorem structConfigGo_spec (attrs : List AttributeM) :
    ∀ i p e, structConfigGo attrs i p e =
      (i || attrs.any attrInfer,
       ((attrs.filterMap attrPre).getLast?).or p,
       e ++ attrs.flatMap attrDiags) := by
  induction attrs with
  | nil => intro i p e; simp [structConfigGo]
  | cons a rest ih =>
    intro i p e
    rcases a with ⟨apath, ameta⟩
    by_cases ha : apath = "apply_overrides"
    · subst ha
      cases ameta with
      | list ts =>
        simp only [structConfigGo, if_pos rfl]
        rw [structWalk_spec]
        cases hd : blockDiag ts with
        | none =>
          cases hbp : blockPre ts with
          | none =>
            simp [hd, hbp, ih, attrInfer, attrPre, attrDiags, List.any_cons,
              List.filterMap_cons, List.flatMap_cons, Bool.or_assoc]
          | some s =>
            simp [hd, hbp, ih, attrInfer, attrPre, attrDiags, List.any_cons,
              List.filterMap_cons, List.flatMap_cons, Bool.or_assoc,
              getLast?_cons_or, Option.or_assoc]
        | some d =>
          cases hbp : blockPre ts with
          | none =>
            simp [hd, hbp, ih, attrInfer, attrPre, attrDiags, List.any_cons,
              List.filterMap_cons, List.flatMap_cons, Bool.or_assoc,
              List.append_assoc]
          | some s =>
            simp [hd, hbp, ih, attrInfer, attrPre, attrDiags, List.any_cons,
              List.filterMap_cons, List.flatMap_cons, Bool.or_assoc,
              getLast?_cons_or, Option.or_assoc, List.append_assoc]
      | path =>
        simp [structConfigGo, ih, attrInfer, attrPre, attrDiags, List.any_cons,
          List.filterMap_cons, List.flatMap_cons, List.append_assoc]
      | nameValue v =>
        simp [structConfigGo, ih, attrInfer, attrPre, attrDiags, List.any_cons,
          List.filterMap_cons, List.flatMap_cons, List.append_assoc]
    · have ha2 : (apath == "apply_overrides") = false := by simpa using ha
      simp [structConfigGo, ha, ha2, ih, attrInfer, attrPre, attrDiags, List.any_cons,
        List.filterMap_cons, List.flatMap_cons]

/-- C10 (amended): all `#[apply_overrides(...)]` attributes are scanned in
attribute order, but each block's token walk stops at its first invalid
token.  Inference is enabled exactly when some block reaches an
`infer_keys` token before (or at) its first invalid token; the effective
default prefix is the last `prefix` value successfully parsed across the
blocks in order; each block contributes at most one diagnostic (its first
failure), and these are accumulated in attribute order.  The second
conjunct shows two blocks both being scanned, the later block's prefix
overwriting the earlier one's. -/
theorem struct_config_scan_amended (input : DeriveInputM) :
    parse_struct_level_config input =
      (input.attrs.any attrInfer,
       (input.attrs.filterMap attrPre).getLast?,
       input.attrs.flatMap attrDiags) ∧
    parse_struct_level_config ⟨"S",
        [⟨"apply_overrides", .list [.assign "prefix" (.str "a")]⟩,
         ⟨"apply_overrides", .list [.ident "infer_keys", .assign "prefix" (.str "b")]⟩],
        .structNamed []⟩
      = (true, some "b", []) := by
  constructor
  · unfold parse_struct_level_config
    rw [structConfigGo_spec]
    cases h : (input.attrs.filterMap attrPre).getLast? <;> simp [h]
  · decide

/-- C10 counterexample: a single `#[apply_overrides(bogus, infer_keys)]`
block contains the `infer_keys` token, yet the parsed configuration leaves
inference disabled, because the scan stops at `bogus`; with the same two
tokens in the opposite order inference is enabled. -/
theorem struct_config_infer_cex :
    AttrToken.ident "infer_keys"
        ∈ [AttrToken.ident "bogus", AttrToken.ident "infer_keys"] ∧
    (parse_struct_level_config ⟨"S",
        [⟨"apply_overrides", .list [.ident "bogus", .ident "infer_keys"]⟩],
        .structNamed []⟩).1 = false ∧
    (parse_struct_level_config ⟨"S",
        [⟨"apply_overrides", .list [.ident "infer_keys", .ident "bogus"]⟩],
        .structNamed []⟩).1 = true := by
  refine ⟨by decide, by decide, by decide⟩
